import Mathlib

/-!
Verification of the concurrent message-routing and memory-lifecycle core of a
multi-channel conversational-agent host, shallowly embedded from the
TypeScript source.

Conventions used throughout:
* JavaScript strings are modelled as Lean `String` (or `List Char` where the
  consolidation-response parser mutates text character by character); JS
  `slice` / `split` / `trim` are transliterated.
* Stateful classes become explicit state records; an `async` suspension point
  becomes an event in an explicit event trace, and the single-threaded event
  loop becomes a deterministic step function over such traces.
* Fallible JS operations (`JSON.parse`, regex match) become `Option`-valued
  functions.
-/

set_option maxRecDepth 16384

namespace Neoclaw

/-! ## Cancellable queue (src/bus/async-queue.ts)

State of one `AsyncQueue<T>`: a FIFO `buffer`, the list of pending `pop()`
waiters (identified by opaque ids, in registration order), and the `closed`
flag.  `push`/`pop`/`close` are the synchronous bodies of the three methods;
the value a resolved waiter receives is returned alongside the new state. -/

structure AsyncQueue (α : Type) where
  buffer : List α
  waiters : List Nat
  closed : Bool
deriving DecidableEq

/-- Outcome of one `pop()` call: an immediate value, an immediate
`undefined` (the queue was closed), or suspension as a registered waiter. -/
inductive PopOutcome (α : Type) where
  | val (a : α)
  | closedNone
  | suspended (id : Nat)
deriving DecidableEq

namespace AsyncQueue

/-- `push(item)`: dropped when closed; otherwise hands the item to the oldest
waiter if one is pending, else appends it to the buffer.  The second
component reports which waiter (if any) was resolved, and with what. -/
def push (q : AsyncQueue α) (item : α) : AsyncQueue α × Option (Nat × α) :=
  if q.closed then (q, none)
  else
    match q.waiters with
    | w :: rest => ({ q with waiters := rest }, some (w, item))
    | [] => ({ q with buffer := q.buffer ++ [item] }, none)

/-- `pop()`: returns `undefined` at once when the queue is closed (the buffer
is NOT consulted in that case — this is the first line of the method);
otherwise shifts the buffer, or registers the caller as a waiter. -/
def pop (q : AsyncQueue α) (id : Nat) : AsyncQueue α × PopOutcome α :=
  if q.closed then (q, .closedNone)
  else
    match q.buffer with
    | item :: rest => ({ q with buffer := rest }, .val item)
    | [] => ({ q with waiters := q.waiters ++ [id] }, .suspended id)

/-- `close()`: sets the flag and resolves every pending waiter with
`undefined`.  The buffer is left in place but becomes unreachable.  The
second component lists the waiters that were resolved (each with no value). -/
def close (q : AsyncQueue α) : AsyncQueue α × List Nat :=
  ({ q with waiters := [], closed := true }, q.waiters)

/-- Repeatedly `pop` (with waiter id 0, which is never used while values are
available) and collect the returned values, `n` times. -/
def drainN : Nat → AsyncQueue α → List α
  | 0, _ => []
  | n + 1, q =>
    match pop q 0 with
    | (q', .val a) => a :: drainN n q'
    | _ => []

end AsyncQueue

/-! ## Message bus and the two driver loops

`MessageBus` (src/bus/message-bus.ts) is two independent queues;
`close()` closes both.  `mainLoop` (src/index.ts) and
`ChannelManager.dispatchLoop` (src/channels/manager.ts) each run
`pop`-process iterations; we model how one iteration reacts to the value the
`pop` resolved with. -/

/-- Inbound message, restricted to the fields the routing core reads. -/
structure InMsg where
  channel : String
  chatId : String
  content : String
deriving DecidableEq

/-- Outbound message, restricted to the fields the dispatch loop reads. -/
structure OutMsg where
  channel : String
  chatId : String
  content : String
deriving DecidableEq

/-- `sessionKey` (src/bus/types.ts): `channel:chatId`. -/
def sessionKey (m : InMsg) : String := m.channel ++ ":" ++ m.chatId

structure MessageBus where
  inbound : AsyncQueue InMsg
  outbound : AsyncQueue OutMsg
deriving DecidableEq

/-- `MessageBus.close()`: closes both queues. -/
def busClose (b : MessageBus) : MessageBus :=
  { inbound := (b.inbound.close).1, outbound := (b.outbound.close).1 }

/-- What one `mainLoop` iteration does with the settled value of
`bus.consumeInbound()`. -/
inductive MainIter where
  | exitsLoop
  | runsMessage (m : InMsg)
deriving DecidableEq

/-- One `mainLoop` iteration (src/index.ts).  When the bus is closed the pop
resolves with `undefined` and the very next statement,
`sessionKey(msg)`, dereferences `undefined` and throws, which terminates
the loop (the rejection propagates out of `mainLoop`). -/
def mainLoopIter : Option InMsg → MainIter
  | none => .exitsLoop
  | some m => .runsMessage m

/-- What one `dispatchLoop` iteration does with the settled value of
`bus.consumeOutbound()`. -/
inductive DispatchIter where
  | exitsLoop
  | skips
  | sends (m : OutMsg)
deriving DecidableEq

/-- One `dispatchLoop` iteration (src/channels/manager.ts).  `undefined`
crashes on `msg.channel` and terminates the loop; a `"system"` message is
skipped; anything else is handed to the channel's `send`. -/
def dispatchLoopIter : Option OutMsg → DispatchIter
  | none => .exitsLoop
  | some m => if m.channel = "system" then .skips else .sends m

/-! ## Session store (src/session/manager.ts and the async SessionManager of
src/bus/types.ts)

The durable log is one `.jsonl` file per sanitized key: a metadata record
followed by one record per conversation entry.  We model an already-parsed
file as a `List Record`, and the file system as an association list from
file path to file contents (later writes shadow earlier ones, lookup takes
the newest). -/

/-- One conversation turn, as stored in a session log. -/
structure SessionEntry where
  role : String
  content : String
  timestamp : String
  toolsUsed : Option (List String)
deriving DecidableEq

/-- In-memory session (async `SessionManager` shape, which carries
`createdAt`). -/
structure Session where
  key : String
  messages : List SessionEntry
  lastConsolidated : Nat
  createdAt : String
deriving DecidableEq

/-- One line of a session `.jsonl` file, already parsed. -/
inductive Record where
  | meta (key : String) (createdAt : String) (lastConsolidated : Nat)
  | entry (e : SessionEntry)
deriving DecidableEq

/-- The sessions directory: path ↦ file contents, newest write first. -/
def Store := List (String × List Record)

def lookupStore : Store → String → Option (List Record)
  | [], _ => none
  | (p, recs) :: rest, path => if p = path then some recs else lookupStore rest path

/-- `writeFileSync`: full rewrite (the new binding shadows any older one). -/
def setFile (st : Store) (path : String) (recs : List Record) : Store :=
  (path, recs) :: st

/-- `appendFileSync`: appends one record, creating the file if absent. -/
def appendRec (st : Store) (path : String) (r : Record) : Store :=
  match lookupStore st path with
  | some recs => setFile st path (recs ++ [r])
  | none => setFile st path [r]

/-- Characters the `filePath` sanitizer keeps: `[a-zA-Z0-9_-]`. -/
def keyCharAllowed (c : Char) : Bool :=
  ('a' ≤ c && c ≤ 'z') || ('A' ≤ c && c ≤ 'Z') || ('0' ≤ c && c ≤ '9')
    || c = '_' || c = '-'

/-- `filePath(key)`: every character outside `[a-zA-Z0-9_-]` is replaced by
an underscore, then `.jsonl` is appended (the constant sessions-directory
prefix is irrelevant to collisions and omitted). -/
def filePath (key : String) : String :=
  String.mk (key.data.map fun c => if keyCharAllowed c then c else '_') ++ ".jsonl"

/-- Folding one parsed line into the session being loaded (`get`): a
metadata record overwrites `lastConsolidated` and, when truthy (non-empty),
`createdAt`; any other record is a message. -/
def loadStep (s : Session) : Record → Session
  | .meta _ ca lc =>
      { s with lastConsolidated := lc,
               createdAt := if ca ≠ "" then ca else s.createdAt }
  | .entry e => { s with messages := s.messages ++ [e] }

/-- `get(key)` on a cache miss: start from the empty session (with
`createdAt` the current time `now`) and fold the file's records, if the
file exists. -/
def loadSession (key now : String) (store : Store) : Session :=
  match lookupStore store (filePath key) with
  | none => { key := key, messages := [], lastConsolidated := 0, createdAt := now }
  | some recs =>
      recs.foldl loadStep
        { key := key, messages := [], lastConsolidated := 0, createdAt := now }

/-- The messages a reload of the durable log would produce: every
non-metadata record, in file order. -/
def entriesOf : Option (List Record) → List SessionEntry
  | none => []
  | some recs => recs.filterMap fun r =>
      match r with
      | .entry e => some e
      | .meta _ _ _ => none

/-- `append(key, role, content)` acting on the durable store and the cached
session: push the entry in memory; write a fresh metadata record first if
the file does not yet exist; then append the entry record.  `ts` is the
entry's fresh timestamp and `now` the `createdAt` used for a fresh
metadata record. -/
def appendOp (store : Store) (session : Session) (role content ts now : String) :
    Store × Session :=
  let e : SessionEntry := { role := role, content := content, timestamp := ts, toolsUsed := none }
  let session' := { session with messages := session.messages ++ [e] }
  let path := filePath session.key
  let store1 :=
    match lookupStore store path with
    | some _ => store
    | none => setFile store path [Record.meta session.key now 0]
  (appendRec store1 path (Record.entry e), session')

/-- `flush(key)`: full rewrite of the log as a metadata record (preserving
the session's `createdAt`) followed by the retained entries. -/
def flushOp (store : Store) (session : Session) : Store :=
  setFile store (filePath session.key)
    (Record.meta session.key session.createdAt session.lastConsolidated
      :: session.messages.map Record.entry)

/-- `trimBefore(key, keepFrom)`: retain `messages[keepFrom:]`, reset
`lastConsolidated` to 0, and flush. -/
def trimBeforeOp (store : Store) (session : Session) (keepFrom : Nat) :
    Store × Session :=
  let session' := { session with messages := session.messages.drop keepFrom,
                                 lastConsolidated := 0 }
  (flushOp store session', session')

/-- `clear(key)`: durably rewrite the log to a single fresh metadata record
(with a NEW `createdAt`) and reset the cached session. -/
def clearOp (store : Store) (key now : String) : Store × Session :=
  (setFile store (filePath key) [Record.meta key now 0],
   { key := key, messages := [], lastConsolidated := 0, createdAt := now })

/-! ## Long-term memory and the orchestrator's consolidation attempt
(src/agent/neovate-agent.ts, `consolidateWithTimeout`; MemoryManager of
src/memory/memory.ts)

Long-term memory is one text blob; the permanent history log is a list of
appended entries (`appendHistoryRotated` mirrors each entry into a monthly
file, which adds no information and is not modelled separately). -/

structure MemState where
  memory : String
  history : List String
deriving DecidableEq

/-- JS `list.slice(-n)`: the last `n` elements (all of them when fewer). -/
def takeLast (n : Nat) (l : List α) : List α := l.drop (l.length - n)

/-- The raw-fallback body written when consolidation fails or times out:
the source first drops entries with empty (falsy) `content`, then takes the
last 10 of the remainder, truncating each content to 200 characters. -/
def fallbackSummary (messages : List SessionEntry) : String :=
  String.intercalate "\n"
    ((takeLast 10 (messages.filter fun m => m.content ≠ "")).map
      fun m => m.role ++ ": " ++ m.content.take 200)

/-- What the §8 scenario sentence literally describes (modelled from the
spec's words, for comparison with `fallbackSummary`): the last 10 entries OF
THE BATCH, each content truncated to 200 characters. -/
def fallbackSummarySpec (messages : List SessionEntry) : String :=
  String.intercalate "\n"
    ((takeLast 10 messages).map fun m => m.role ++ ": " ++ m.content.take 200)

/-- Result of one consolidation call (`ConsolidationResult`): `none`
models an absent (undefined) field. -/
structure ConsolidationResult where
  historyEntry : Option String
  memoryUpdate : Option String
deriving DecidableEq

/-- How the race inside `consolidateWithTimeout` settles: the consolidation
promise wins with a result, or the attempt fails (the timeout fires first,
or the consolidation call rejects). -/
inductive ConsOutcome where
  | ok (r : ConsolidationResult)
  | failed
deriving DecidableEq

/-- `consolidateWithTimeout(messages)` as a function of how the race
settles.  `currentMemory` is read from the memory state at call time.  On
success: append `historyEntry` when truthy; overwrite memory only when
`memoryUpdate` is truthy and differs from the text read at call time.  On
failure: append exactly one `[raw-fallback]` entry and touch nothing else. -/
def consolidateWithTimeout (messages : List SessionEntry) (outcome : ConsOutcome)
    (st : MemState) : MemState :=
  let currentMemory := st.memory
  match outcome with
  | .ok r =>
      let st1 :=
        match r.historyEntry with
        | some h => if h ≠ "" then { st with history := st.history ++ [h] } else st
        | none => st
      match r.memoryUpdate with
      | some m =>
          if m ≠ "" ∧ m ≠ currentMemory then { st1 with memory := m } else st1
      | none => st1
  | .failed =>
      { st with history := st.history ++
          ["[raw-fallback] Consolidation failed. Recent messages:\n"
            ++ fallbackSummary messages] }

/-! ## Session-window management (src/agent/neovate-agent.ts,
`manageSessionWindow`)

Pure view of one overflow check: which batch (if any) is handed to
consolidation, and the session state after `trimBefore`.  The recap string
and SDK-handle teardown are not needed by any claim. -/

/-- JS `messages.slice(a, b)` for `a, b` within bounds. -/
def sliceList (l : List α) (a b : Nat) : List α := (l.drop a).take (b - a)

structure WindowResult where
  consolidated : Option (List SessionEntry)
  session : Session
deriving DecidableEq

/-- `manageSessionWindow`: no-op while `messageCount ≤ memoryWindow`;
otherwise `keepCount = ⌊window/2⌋`, `cutoff = length - keepCount`, the batch
is `messages.slice(lastConsolidated, cutoff)` (handed to consolidation only
when non-empty), and the session is trimmed before `cutoff`
unconditionally. -/
def manageSessionWindow (window : Nat) (s : Session) : WindowResult :=
  let keepCount := window / 2
  if s.messages.length ≤ window then
    { consolidated := none, session := s }
  else
    let cutoff := s.messages.length - keepCount
    let oldMessages := sliceList s.messages s.lastConsolidated cutoff
    { consolidated := if oldMessages.length > 0 then some oldMessages else none,
      session := { s with messages := s.messages.drop cutoff, lastConsolidated := 0 } }

/-! ## Consolidation pipeline queue (src/memory/consolidation.ts,
`ConsolidationService.consolidate` / `drain`)

`consolidate(messages, currentMemory)` enqueues an item and calls `drain()`;
`drain` returns at once when the `draining` flag is set, otherwise sets it
and processes queue items one at a time, resolving each caller before
shifting the next item.  The flag check and set happen synchronously, so
entering the drain loop is atomic; the only suspension point is the awaited
summarization call, after which the drain loop synchronously resolves the
caller and (if the queue is non-empty) starts the next item — the next
item's prompt is built from the `currentMemory` captured when that item was
enqueued.

We model the service plus its environment as a deterministic step function
over an event trace.  An item is `(caller id, memory snapshot)`; the
snapshot is the global memory text at enqueue time (in the source it is read
by the caller even earlier, before `consolidate` is invoked — using the
enqueue-time value is the most charitable reading).  Bookkeeping fields
(`processedLog`, `settled`, `enqLog`) are write-only logs used to state
properties; they do not influence any step. -/

structure CState where
  queue : List (Nat × String)
  draining : Bool
  current : List (Nat × String)
  processedLog : List (Nat × String)
  settled : List Nat
  enqLog : List (Nat × String)
  memory : String
deriving DecidableEq

/-- Events of the consolidation model: a caller invokes `consolidate`; the
in-flight summarization call settles (the drain loop resolves the caller and
moves on); some settled caller writes the long-term-memory text. -/
inductive CEvent where
  | consolidate (id : Nat)
  | finish
  | write (m : String)
deriving DecidableEq

def cInit (mem : String) : CState :=
  { queue := [], draining := false, current := [], processedLog := [],
    settled := [], enqLog := [], memory := mem }

def cStep (st : CState) : CEvent → CState
  | .consolidate id =>
      -- `consolidate` pushes, then calls `drain()`.
      let item := (id, st.memory)
      let st := { st with queue := st.queue ++ [item], enqLog := st.enqLog ++ [item] }
      if st.draining then st
      else
        -- drain(): set the flag, shift the first item, start processing it
        -- (the while-loop body suspends at the summarization call).
        match st.queue with
        | [] => st
        | q :: rest =>
            { st with draining := true, queue := rest, current := [q],
                      processedLog := st.processedLog ++ [q] }
  | .finish =>
      match st.current with
      | [] => st
      | (c, _) :: _ =>
          -- doConsolidate settled: resolve this caller, then continue the
          -- while loop — shift the next item or exit with the flag cleared.
          let st := { st with settled := st.settled ++ [c], current := [] }
          match st.queue with
          | [] => { st with draining := false }
          | q :: rest =>
              { st with queue := rest, current := [q],
                        processedLog := st.processedLog ++ [q] }
  | .write m => { st with memory := m }

def cRun (st : CState) : List CEvent → CState
  | [] => st
  | e :: es => cRun (cStep st e) es

/-- The per-call prompt built by `doConsolidate`, as a function of the batch
and the memory text captured for that call (`maxMemorySize` is the
compression threshold). -/
def consolidationPrompt (messages : List SessionEntry) (currentMemory : String)
    (maxMemorySize : Nat) : String :=
  let conversationText := String.intercalate "\n"
    ((messages.filter fun m => m.content ≠ "").map fun m =>
      let ts := if m.timestamp ≠ "" then "[" ++ m.timestamp.take 16 ++ "]" else "[?]"
      let tools :=
        match m.toolsUsed with
        | some (t :: ts') => " [tools: " ++ String.intercalate ", " (t :: ts') ++ "]"
        | _ => ""
      ts ++ " " ++ m.role.toUpper ++ tools ++ ": " ++ m.content)
  let compressionNote :=
    if currentMemory.length > maxMemorySize then
      "\n\nIMPORTANT: The current memory exceeds the size limit. In your memory_update, compress and prune stale or low-value facts to keep it concise. Prioritize recent and frequently-referenced information."
    else ""
  String.intercalate "\n"
    ["You are a memory consolidation agent. Process this conversation and return a JSON object with exactly two keys:",
     "",
     "1. \"history_entry\": A paragraph (2-5 sentences) summarizing the key events/decisions/topics. Start with a timestamp like [YYYY-MM-DD HH:MM]. Include enough detail to be useful when found by grep search later.",
     "",
     "2. \"memory_update\": The updated long-term memory content. Add any new facts: user location, preferences, personal info, habits, project context, technical decisions, tools/services used. If nothing new, return the existing content unchanged.",
     "",
     "## Current Long-term Memory",
     (if currentMemory ≠ "" then currentMemory else "(empty)"),
     "",
     "## Conversation to Process",
     conversationText,
     compressionNote,
     "",
     "Respond with ONLY valid JSON, no markdown fences."]

/-! ## Per-key serialization in `mainLoop` (src/index.ts)

For each consumed message, `mainLoop` looks up the running tail promise for
the message's key, chains `processMsg` after it, and stores the new tail;
interrupt commands (`/stop`) bypass the chain and do not touch the map.  The
`running.delete` cleanup only removes an already-settled tail, so a message
that later finds the key absent chains after a promise that has already
finished — dropping the delete from the model changes no ordering
constraint.

`chainPreds` computes, for each message position, the position of the
message whose completion its processing is chained after (`none` when it is
chained on an already-resolved promise or bypasses the chain).  A schedule
is a list of start/finish events; `validSched` is the contract of the
promise runtime: a `then`-continuation only starts after the promise it was
chained on has settled. -/

def isInterrupt (m : InMsg) : Bool := m.content = "/stop"

def lookupRun : List (String × Nat) → String → Option Nat
  | [], _ => none
  | (k, v) :: rest, key => if k = key then some v else lookupRun rest key

/-- The running-map fold of `mainLoop`: message `i` of key `k` chains after
the mapped tail for `k` (if any) and becomes the new tail; interrupts chain
after nothing and leave the map unchanged. -/
def chainPredsAux : List InMsg → Nat → List (String × Nat) → List (Option Nat)
  | [], _, _ => []
  | m :: rest, i, running =>
      if isInterrupt m then none :: chainPredsAux rest (i + 1) running
      else lookupRun running (sessionKey m)
            :: chainPredsAux rest (i + 1) ((sessionKey m, i) :: running)

def chainPreds (msgs : List InMsg) : List (Option Nat) := chainPredsAux msgs 0 []

/-- The last position in `msgs` holding a non-interrupt message with session
key `k` (used to say "the previous message of the same conversation"). -/
def lastWithKey (msgs : List InMsg) (k : String) : Option Nat :=
  match msgs with
  | [] => none
  | m :: rest =>
      match lastWithKey rest k with
      | some t => some (t + 1)
      | none => if !isInterrupt m && sessionKey m = k then some 0 else none

/-- A scheduling event: orchestration of message `i` starts / completes. -/
inductive Ev where
  | start (i : Nat)
  | finish (i : Nat)
deriving DecidableEq

/-- The promise-runtime contract for one event of a schedule: a finish needs
an earlier start, and a start whose message was chained after message `i`
needs message `i` to have finished earlier. -/
def evOk (msgs : List InMsg) (sched : List Ev) : Ev → Bool
  | .finish i =>
      decide (Ev.start i ∈ sched)
        && decide (sched.indexOf (Ev.start i) < sched.indexOf (Ev.finish i))
  | .start j =>
      match (chainPreds msgs)[j]? with
      | some (some i) =>
          decide (Ev.finish i ∈ sched)
            && decide (sched.indexOf (Ev.finish i) < sched.indexOf (Ev.start j))
      | _ => true

/-- A schedule the promise runtime can produce: no duplicate events, and
every event respects `evOk`. -/
def validSched (msgs : List InMsg) (sched : List Ev) : Bool :=
  decide sched.Nodup && sched.all (evOk msgs sched)

/-! ## Multi-tier response parser (src/memory/consolidation.ts,
`parseResponse` / `extractFromParsed`)

The parser mutates the text character by character, so here text is
`List Char` (abbreviated `Str`).  `JSON.parse` is modelled by `jsonParse`,
a parser for the dialect the summarizer is instructed to produce and the
only dialect `extractFromParsed` can use: a flat object whose keys and
values are JSON strings (escape sequences are decoded as JSON.parse does;
`\u` escapes are accepted for scalar values only).  The tier-3 regexes
`/"FIELD"\s*:\s*"((?:[^"\x7c\\]|\\.)*)"/` are deterministic — no two
distinct unit decompositions exist at one start position — so they are
modelled by a left-to-right scan with maximal-munch capture. -/

abbrev Str := List Char

/-- The backtick character (code 96). -/
def btick : Char := Char.ofNat 96

/-- Opening / closing brace characters (codes 123 / 125). -/
def lbrace : Char := Char.ofNat 123

def rbrace : Char := Char.ofNat 125

/-- JS `\s` for the whitespace actually involved here. -/
def isWsChar (c : Char) : Bool := c = ' ' || c = '\t' || c = '\n' || c = '\r'

def skipWs (s : Str) : Str := s.dropWhile isWsChar

/-- JS `String.prototype.trim`. -/
def trimChars (s : Str) : Str := ((s.dropWhile isWsChar).reverse.dropWhile isWsChar).reverse

/-- JS `text.split("\n")`. -/
def splitNl : Str → List Str
  | [] => [[]]
  | c :: rest =>
      if c = '\n' then [] :: splitNl rest
      else
        match splitNl rest with
        | l :: ls => (c :: l) :: ls
        | [] => [[c]]

/-- JS `lines.join("\n")`. -/
def joinNl : List Str → Str
  | [] => []
  | [l] => l
  | l :: ls => l ++ '\n' :: joinNl ls

/-- Does the text start with three backticks? -/
def isFenceStart (s : Str) : Bool := s.take 3 = [btick, btick, btick]

/-- Strip a leading markdown fence line and, when present, a trailing fence
line, then trim — the first stage of `parseResponse`. -/
def stripFences (text : Str) : Str :=
  if isFenceStart text then
    let lines := (splitNl text).drop 1
    let lines2 :=
      match lines.getLast? with
      | some last => if isFenceStart (trimChars last) then lines.dropLast else lines
      | none => lines
    trimChars (joinNl lines2)
  else text

/-- Value of one hexadecimal digit (for `\uXXXX` escapes). -/
def hexVal (c : Char) : Option Nat :=
  let n := c.toNat
  if 48 ≤ n ∧ n ≤ 57 then some (n - 48)       -- digits
  else if 97 ≤ n ∧ n ≤ 102 then some (n - 87) -- lowercase a-f
  else if 65 ≤ n ∧ n ≤ 70 then some (n - 55)  -- uppercase A-F
  else none

/-- Decode one JSON escape (the character(s) after the backslash). -/
def parseEscape : Str → Option (Char × Str)
  | 'n' :: r => some ('\n', r)
  | 't' :: r => some ('\t', r)
  | 'r' :: r => some ('\r', r)
  | 'b' :: r => some (Char.ofNat 8, r)
  | 'f' :: r => some (Char.ofNat 12, r)
  | '/' :: r => some ('/', r)
  | '\\' :: r => some ('\\', r)
  | '"' :: r => some ('"', r)
  | 'u' :: h1 :: h2 :: h3 :: h4 :: r => do
      let n := (← hexVal h1) * 4096 + (← hexVal h2) * 256 + (← hexVal h3) * 16 + (← hexVal h4)
      if n.isValidChar then some (Char.ofNat n, r) else none
  | _ => none

/-- JSON string body (after the opening quote), fuel-bounded: returns the
decoded body and the text after the closing quote.  Unescaped control
characters are rejected, as `JSON.parse` does. -/
def parseJStringF : Nat → Str → Option (Str × Str)
  | 0, _ => none
  | _ + 1, [] => none
  | fuel + 1, c :: r =>
      if c = '"' then some ([], r)
      else if c = '\\' then do
        let (d, r') ← parseEscape r
        let (body, r'') ← parseJStringF fuel r'
        some (d :: body, r'')
      else if c.toNat < 32 then none
      else do
        let (body, r'') ← parseJStringF fuel r
        some (c :: body, r'')

/-- Members of a flat JSON object: `"key" : "value"` pairs separated by
commas; returns the pairs and the text from the character that ended the
member list (expected to be the closing brace). -/
def parseMembersF : Nat → Str → Option (List (Str × Str) × Str)
  | 0, _ => none
  | fuel + 1, s =>
      match skipWs s with
      | '"' :: r => do
          let (k, r1) ← parseJStringF (r.length + 1) r
          match skipWs r1 with
          | ':' :: r3 =>
              match skipWs r3 with
              | '"' :: r5 => do
                  let (v, r6) ← parseJStringF (r5.length + 1) r5
                  match skipWs r6 with
                  | ',' :: r8 => do
                      let (ms, r9) ← parseMembersF fuel r8
                      some ((k, v) :: ms, r9)
                  | r7 => some ([(k, v)], r7)
              | _ => none
          | _ => none
      | _ => none

/-- `JSON.parse` on the dialect described above: one flat object, nothing
but whitespace around it. -/
def jsonParse (s : Str) : Option (List (Str × Str)) :=
  match skipWs s with
  | c :: r =>
      if c = lbrace then
        match skipWs r with
        | d :: r2 =>
            if d = rbrace then if skipWs r2 = [] then some [] else none
            else do
              let (ms, rest) ← parseMembersF (r.length + 1) (skipWs r)
              match rest with
              | e :: r3 =>
                  if e = rbrace then if skipWs r3 = [] then some ms else none
                  else none
              | [] => none
        | [] => none
      else none
  | [] => none

/-- Property lookup on a parsed object: with duplicate keys `JSON.parse`
keeps the last occurrence. -/
def lookupField (obj : List (Str × Str)) (k : Str) : Option Str :=
  ((obj.filter fun p => decide (p.1 = k)).getLast?).map Prod.snd

def histKey : Str := "history_entry".toList

def memKey : Str := "memory_update".toList

/-- `extractFromParsed`: take each field when truthy (present and
non-empty). -/
def extractFromParsed (parsed : List (Str × Str)) : ConsolidationResult :=
  { historyEntry :=
      match lookupField parsed histKey with
      | some v => if v = [] then none else some (String.mk v)
      | none => none,
    memoryUpdate :=
      match lookupField parsed memKey with
      | some v => if v = [] then none else some (String.mk v)
      | none => none }

/-- Tier 2 brace matching from the first `{`: depth-counting scan returning
the first balanced block (inclusive), if the depth ever returns to zero. -/
def scanBal : Str → Nat → Str → Option Str
  | [], _, _ => none
  | c :: rest, depth, acc =>
      if c = lbrace then scanBal rest (depth + 1) (c :: acc)
      else if c = rbrace then
        if depth = 1 then some (c :: acc).reverse else scanBal rest (depth - 1) (c :: acc)
      else scanBal rest depth (c :: acc)

def braceBlock (text : Str) : Option Str :=
  match text.dropWhile (fun c => !(c = lbrace)) with
  | [] => none
  | s => scanBal s 0 []

/-- Consume an exact literal from the front of the text. -/
def stripExact : Str → Str → Option Str
  | [], s => some s
  | _ :: _, [] => none
  | c :: p, d :: s => if c = d then stripExact p s else none

/-- The capture group `((?:[^"\\]|\\.)*)` followed by the closing quote:
maximal munch, keeping escape pairs raw. -/
def captureUnits : Str → Option (Str × Str)
  | [] => none
  | '"' :: r => some ([], r)
  | '\\' :: c :: r => (captureUnits r).map fun p => ('\\' :: c :: p.1, p.2)
  | ['\\'] => none
  | c :: r => (captureUnits r).map fun p => (c :: p.1, p.2)

/-- Try the tier-3 field regex anchored at the current position. -/
def matchFieldAt (field : Str) (s : Str) : Option Str := do
  let r1 ← stripExact ('"' :: field ++ ['"']) s
  let r3 ← stripExact [':'] (skipWs r1)
  let r5 ← stripExact ['"'] (skipWs r3)
  let (cap, _) ← captureUnits r5
  some cap

/-- `text.match(regex)`: first position where the field pattern matches,
returning the raw capture. -/
def fieldSearch (field : Str) : Str → Option Str
  | [] => none
  | s@(_ :: rest) =>
      match matchFieldAt field s with
      | some cap => some cap
      | none => fieldSearch field rest

/-- Tier 3's `JSON.parse('"' + capture + '"')`. -/
def decodeCapture (cap : Str) : Option String :=
  match parseJStringF (cap.length + 2) (cap ++ ['"']) with
  | some (body, []) => some (String.mk body)
  | _ => none

/-- `parseResponse`: strip fences, then tier 1 (direct parse), tier 2
(first balanced brace block), tier 3 (independent field regexes, either
field recoverable on its own). -/
def parseResponse (raw : Str) : ConsolidationResult :=
  let text := stripFences raw
  match jsonParse text with
  | some parsed => extractFromParsed parsed
  | none =>
      match (braceBlock text).bind jsonParse with
      | some parsed => extractFromParsed parsed
      | none =>
          { historyEntry := (fieldSearch histKey text).bind decodeCapture,
            memoryUpdate := (fieldSearch memKey text).bind decodeCapture }

/-! # Theorems -/

/-! ## C5 — AsyncQueue delivery and close semantics -/

lemma drainN_buffer (α : Type) :
    ∀ buf : List α, AsyncQueue.drainN buf.length ⟨buf, [], false⟩ = buf := by
  intro buf
  induction buf with
  | nil => rfl
  | cons a rest ih =>
      simpa [AsyncQueue.drainN, AsyncQueue.pop] using ih

/-- C5 (counterexample): push an item into an open, empty queue, then close;
the item sits in the buffer, yet the next `pop()` returns the closed
sentinel and leaves the queue unchanged — so the pushed item is never
returned by any `pop()`, falsifying "every pushed item is eventually
returned by pop() in push order" for the sequence push-then-close. -/
theorem asyncQueue_push_close_drop :
    ((AsyncQueue.push (⟨[], [], false⟩ : AsyncQueue String) "a").1).buffer = ["a"]
    ∧ AsyncQueue.pop ((AsyncQueue.close
        ((AsyncQueue.push (⟨[], [], false⟩ : AsyncQueue String) "a").1)).1) 0
      = (((AsyncQueue.close
        ((AsyncQueue.push (⟨[], [], false⟩ : AsyncQueue String) "a").1)).1),
         PopOutcome.closedNone) := by
  constructor <;> rfl

/-- C5 (amended): items still buffered while the queue is open are returned
by successive `pop()` calls in push order; once `closed` is set, every
`pop()` returns the closed sentinel immediately and forever (the state no
longer changes), even when the buffer is non-empty; `close()` resolves
exactly the pending waiters, with no value, and retains the buffer
unreachably; `push` after close is a dropped no-op; while open, `push`
buffers in order or hands the item to the oldest waiter. -/
theorem asyncQueue_spec :
    (∀ (α : Type) (buf : List α),
        AsyncQueue.drainN buf.length (⟨buf, [], false⟩ : AsyncQueue α) = buf)
  ∧ (∀ (α : Type) (q : AsyncQueue α) (id : Nat), q.closed = true →
        AsyncQueue.pop q id = (q, PopOutcome.closedNone))
  ∧ (∀ (α : Type) (q : AsyncQueue α),
        AsyncQueue.close q = ({ q with waiters := [], closed := true }, q.waiters))
  ∧ (∀ (α : Type) (q : AsyncQueue α) (a : α), q.closed = true →
        AsyncQueue.push q a = (q, none))
  ∧ (∀ (α : Type) (q : AsyncQueue α) (a : α), q.closed = false → q.waiters = [] →
        AsyncQueue.push q a = ({ q with buffer := q.buffer ++ [a] }, none))
  ∧ (∀ (α : Type) (q : AsyncQueue α) (a : α) (w : Nat) (ws : List Nat),
        q.closed = false → q.waiters = w :: ws →
        AsyncQueue.push q a = ({ q with waiters := ws }, some (w, a))) := by
  refine ⟨drainN_buffer, ?_, ?_, ?_, ?_, ?_⟩
  · intro α q id hq; simp [AsyncQueue.pop, hq]
  · intro α q; rfl
  · intro α q a hq; simp [AsyncQueue.push, hq]
  · intro α q a hq hw; simp [AsyncQueue.push, hq, hw]
  · intro α q a w ws hq hw; simp [AsyncQueue.push, hq, hw]

/-- C5 witness: the amended statement evaluated on concrete queues. -/
theorem asyncQueue_spec_witness :
    AsyncQueue.drainN 2 (⟨["x", "y"], [], false⟩ : AsyncQueue String) = ["x", "y"]
    ∧ AsyncQueue.pop (⟨["x"], [], true⟩ : AsyncQueue String) 7
        = (⟨["x"], [], true⟩, PopOutcome.closedNone)
    ∧ AsyncQueue.close (⟨["x"], [3, 4], false⟩ : AsyncQueue String)
        = (⟨["x"], [], true⟩, [3, 4])
    ∧ AsyncQueue.push (⟨[], [], true⟩ : AsyncQueue String) "z" = (⟨[], [], true⟩, none)
    ∧ AsyncQueue.push (⟨["x"], [], false⟩ : AsyncQueue String) "z"
        = (⟨["x", "z"], [], false⟩, none)
    ∧ AsyncQueue.push (⟨[], [3, 4], false⟩ : AsyncQueue String) "z"
        = (⟨[], [4], false⟩, some (3, "z")) :=
  ⟨asyncQueue_spec.1 String ["x", "y"],
   asyncQueue_spec.2.1 String ⟨["x"], [], true⟩ 7 rfl,
   asyncQueue_spec.2.2.1 String ⟨["x"], [3, 4], false⟩,
   asyncQueue_spec.2.2.2.1 String ⟨[], [], true⟩ "z" rfl,
   asyncQueue_spec.2.2.2.2.1 String ⟨["x"], [], false⟩ "z" rfl rfl,
   asyncQueue_spec.2.2.2.2.2 String ⟨[], [3, 4], false⟩ "z" 3 [4] rfl rfl⟩

/-! ## C9 — shutdown behavior of the two driver loops -/

/-- C9 (counterexample): a message already buffered on the inbound queue
when the bus is closed is never delivered — the next `pop()` returns the
closed sentinel and leaves the state unchanged, falsifying "no message that
was already buffered in either queue before the close is silently
dropped". -/
theorem busClose_drops_buffered :
    AsyncQueue.pop (busClose
        ⟨⟨[⟨"cli", "42", "hello"⟩], [], false⟩, ⟨[], [], false⟩⟩).inbound 0
      = ((busClose ⟨⟨[⟨"cli", "42", "hello"⟩], [], false⟩, ⟨[], [], false⟩⟩).inbound,
         PopOutcome.closedNone)
    ∧ (busClose ⟨⟨[⟨"cli", "42", "hello"⟩], [], false⟩, ⟨[], [], false⟩⟩).inbound.buffer
      = [⟨"cli", "42", "hello"⟩] := by
  constructor <;> rfl

/-- C9 (amended): closing the bus closes both queues, resolving every
pending `pop()` on either queue with the absent value; afterwards any
`pop()` on either queue returns the absent value immediately, and the next
iteration of each loop exits it (in the source via the TypeError thrown by
dereferencing the `undefined` message, which rejects the loop's promise).
Messages still buffered at close, however, are dropped: they stay in the
unreachable buffer and are never returned. -/
theorem busClose_spec :
    (∀ (b : MessageBus) (id : Nat),
        (busClose b).inbound.closed = true
      ∧ (busClose b).outbound.closed = true
      ∧ (AsyncQueue.close b.inbound).2 = b.inbound.waiters
      ∧ (AsyncQueue.close b.outbound).2 = b.outbound.waiters
      ∧ AsyncQueue.pop (busClose b).inbound id
          = ((busClose b).inbound, PopOutcome.closedNone)
      ∧ AsyncQueue.pop (busClose b).outbound id
          = ((busClose b).outbound, PopOutcome.closedNone)
      ∧ (busClose b).inbound.buffer = b.inbound.buffer
      ∧ (busClose b).outbound.buffer = b.outbound.buffer)
  ∧ mainLoopIter none = MainIter.exitsLoop
  ∧ dispatchLoopIter none = DispatchIter.exitsLoop := by
  refine ⟨fun b id => ⟨rfl, rfl, rfl, rfl, ?_, ?_, rfl, rfl⟩, rfl, rfl⟩
  · simp [AsyncQueue.pop, busClose, AsyncQueue.close]
  · simp [AsyncQueue.pop, busClose, AsyncQueue.close]

/-! ## C1 — raw-fallback on consolidation failure/timeout -/

/-- C1 (counterexample): an 11-entry batch whose last entry has empty
content.  The fallback entry the code writes summarizes the last 10
NON-EMPTY entries — which include the batch's first entry and omit its
last — so it differs from "the last 10 entries of the batch, content
truncated to 200 characters" that the claim describes. -/
theorem fallback_filters_before_lastTen :
    fallbackSummary
        [⟨"u", "c1", "t", none⟩, ⟨"u", "c2", "t", none⟩, ⟨"u", "c3", "t", none⟩,
         ⟨"u", "c4", "t", none⟩, ⟨"u", "c5", "t", none⟩, ⟨"u", "c6", "t", none⟩,
         ⟨"u", "c7", "t", none⟩, ⟨"u", "c8", "t", none⟩, ⟨"u", "c9", "t", none⟩,
         ⟨"u", "c10", "t", none⟩, ⟨"u", "", "t", none⟩]
      ≠ fallbackSummarySpec
        [⟨"u", "c1", "t", none⟩, ⟨"u", "c2", "t", none⟩, ⟨"u", "c3", "t", none⟩,
         ⟨"u", "c4", "t", none⟩, ⟨"u", "c5", "t", none⟩, ⟨"u", "c6", "t", none⟩,
         ⟨"u", "c7", "t", none⟩, ⟨"u", "c8", "t", none⟩, ⟨"u", "c9", "t", none⟩,
         ⟨"u", "c10", "t", none⟩, ⟨"u", "", "t", none⟩]
    ∧ (consolidateWithTimeout
        [⟨"u", "c1", "t", none⟩, ⟨"u", "c2", "t", none⟩, ⟨"u", "c3", "t", none⟩,
         ⟨"u", "c4", "t", none⟩, ⟨"u", "c5", "t", none⟩, ⟨"u", "c6", "t", none⟩,
         ⟨"u", "c7", "t", none⟩, ⟨"u", "c8", "t", none⟩, ⟨"u", "c9", "t", none⟩,
         ⟨"u", "c10", "t", none⟩, ⟨"u", "", "t", none⟩]
        ConsOutcome.failed ⟨"mem", []⟩).history
      = ["[raw-fallback] Consolidation failed. Recent messages:\n"
          ++ "u: c1\nu: c2\nu: c3\nu: c4\nu: c5\nu: c6\nu: c7\nu: c8\nu: c9\nu: c10"] := by
  constructor
  · decide
  · rfl

/-- C1 (amended): a consolidation attempt whose race fails (timeout or
rejection) appends exactly one history entry, tagged `[raw-fallback]` and
containing the last 10 entries AMONG THOSE OF THE BATCH WITH NON-EMPTY
CONTENT, each content truncated to 200 characters, and leaves the long-term
memory text unmodified. -/
theorem consolidateWithTimeout_failed (messages : List SessionEntry) (st : MemState) :
    (consolidateWithTimeout messages ConsOutcome.failed st).memory = st.memory
    ∧ (consolidateWithTimeout messages ConsOutcome.failed st).history
      = st.history
          ++ ["[raw-fallback] Consolidation failed. Recent messages:\n"
              ++ fallbackSummary messages] :=
  ⟨rfl, rfl⟩

/-! ## C10 — session-key sanitization is not injective -/

/-- C10: `filePath` collapses distinct keys — `"cli:a_b"` and `"cli_a:b"`
map to the same `.jsonl` file, and the store operations on the two keys
read and mutate the same durable log: an `append` under the first key is
visible to a `get` (reload) under the second, and a `trimBefore` under the
second key empties what a reload under the first sees. -/
theorem filePath_collision :
    ("cli:a_b" : String) ≠ "cli_a:b"
    ∧ filePath "cli:a_b" = filePath "cli_a:b"
    ∧ (loadSession "cli_a:b" "t1"
        (appendOp [] ⟨"cli:a_b", [], 0, "t0"⟩ "user" "hi" "ts" "t0").1).messages
      = [⟨"user", "hi", "ts", none⟩]
    ∧ (loadSession "cli:a_b" "t2"
        (trimBeforeOp
          (appendOp [] ⟨"cli:a_b", [], 0, "t0"⟩ "user" "hi" "ts" "t0").1
          (loadSession "cli_a:b" "t1"
            (appendOp [] ⟨"cli:a_b", [], 0, "t0"⟩ "user" "hi" "ts" "t0").1)
          1).1).messages
      = [] := by
  refine ⟨by decide, by decide, by decide, by decide⟩

/-! ## C4 — window-overflow arithmetic -/

/-- C4: when the message count exceeds the window, `keepCount = ⌊window/2⌋`
and `cutoff = messageCount - keepCount`; the consolidated batch is exactly
`messages[lastConsolidated:cutoff]` (handed over iff non-empty), the
session is trimmed to `messages[cutoff:]` — `keepCount` entries — and
`lastConsolidated` resets to 0 with `createdAt` and `key` untouched. -/
theorem manageSessionWindow_overflow (window : Nat) (s : Session)
    (hover : window < s.messages.length)
    (hlc : s.lastConsolidated ≤ s.messages.length - window / 2) :
    (manageSessionWindow window s).session.messages
        = s.messages.drop (s.messages.length - window / 2)
    ∧ (manageSessionWindow window s).session.messages.length = window / 2
    ∧ (manageSessionWindow window s).session.lastConsolidated = 0
    ∧ (manageSessionWindow window s).session.createdAt = s.createdAt
    ∧ (manageSessionWindow window s).session.key = s.key
    ∧ s.messages.take s.lastConsolidated
        ++ sliceList s.messages s.lastConsolidated (s.messages.length - window / 2)
        = s.messages.take (s.messages.length - window / 2)
    ∧ (manageSessionWindow window s).consolidated
        = (if s.lastConsolidated < s.messages.length - window / 2
           then some (sliceList s.messages s.lastConsolidated
                        (s.messages.length - window / 2))
           else none) := by
  have hnot : ¬ s.messages.length ≤ window := Nat.not_le.mpr hover
  have hkeep : window / 2 ≤ s.messages.length :=
    le_trans (Nat.div_le_self window 2) (le_of_lt hover)
  have hslicelen :
      (sliceList s.messages s.lastConsolidated (s.messages.length - window / 2)).length
        = s.messages.length - window / 2 - s.lastConsolidated := by
    simp only [sliceList, List.length_take, List.length_drop]
    omega
  refine ⟨?_, ?_, ?_, ?_, ?_, ?_, ?_⟩
  · simp [manageSessionWindow, hnot]
  · simp [manageSessionWindow, hnot, List.length_drop]
    omega
  · simp [manageSessionWindow, hnot]
  · simp [manageSessionWindow, hnot]
  · simp [manageSessionWindow, hnot]
  · rw [sliceList, ← List.take_add]
    congr 1
    omega
  · have hcond : (0 < (sliceList s.messages s.lastConsolidated
        (s.messages.length - window / 2)).length)
        ↔ (s.lastConsolidated < s.messages.length - window / 2) := by
      rw [hslicelen]; omega
    simp only [manageSessionWindow]
    rw [if_neg hnot]
    simp only [gt_iff_lt, hcond]

/-- C4 witness: the claim's concrete scenario — window 50, a 51-entry
session with `lastConsolidated = 0` consolidates `entries[0:26]`, trims
before 26, and retains 25 entries with `lastConsolidated = 0`. -/
theorem manageSessionWindow_overflow_witness :
    50 < (List.replicate 51 (⟨"u", "c", "t", none⟩ : SessionEntry)).length
    ∧ ((manageSessionWindow 50
          ⟨"k", List.replicate 51 ⟨"u", "c", "t", none⟩, 0, "t0"⟩).session.messages
        = (List.replicate 51 (⟨"u", "c", "t", none⟩ : SessionEntry)).drop (51 - 50 / 2)
      ∧ (manageSessionWindow 50
          ⟨"k", List.replicate 51 ⟨"u", "c", "t", none⟩, 0, "t0"⟩).session.messages.length
        = 50 / 2
      ∧ (manageSessionWindow 50
          ⟨"k", List.replicate 51 ⟨"u", "c", "t", none⟩, 0, "t0"⟩).session.lastConsolidated
        = 0
      ∧ (manageSessionWindow 50
          ⟨"k", List.replicate 51 ⟨"u", "c", "t", none⟩, 0, "t0"⟩).session.createdAt
        = "t0"
      ∧ (manageSessionWindow 50
          ⟨"k", List.replicate 51 ⟨"u", "c", "t", none⟩, 0, "t0"⟩).session.key = "k"
      ∧ (List.replicate 51 (⟨"u", "c", "t", none⟩ : SessionEntry)).take 0
          ++ sliceList (List.replicate 51 ⟨"u", "c", "t", none⟩) 0 (51 - 50 / 2)
        = (List.replicate 51 (⟨"u", "c", "t", none⟩ : SessionEntry)).take (51 - 50 / 2)
      ∧ (manageSessionWindow 50
          ⟨"k", List.replicate 51 ⟨"u", "c", "t", none⟩, 0, "t0"⟩).consolidated
        = (if 0 < 51 - 50 / 2
           then some (sliceList (List.replicate 51 ⟨"u", "c", "t", none⟩) 0 (51 - 50 / 2))
           else none)) :=
  ⟨by decide,
   manageSessionWindow_overflow 50 ⟨"k", List.replicate 51 ⟨"u", "c", "t", none⟩, 0, "t0"⟩
     (by decide) (by decide)⟩

/-! ## C6 — trim-then-reload frame conditions -/

lemma lookupStore_setFile (st : Store) (p : String) (recs : List Record) :
    lookupStore (setFile st p recs) p = some recs := by
  simp [setFile, lookupStore]

lemma foldl_loadStep_entries (es : List SessionEntry) :
    ∀ s0 : Session, (es.map Record.entry).foldl loadStep s0
      = { s0 with messages := s0.messages ++ es } := by
  induction es with
  | nil => intro s0; simp
  | cons e rest ih =>
      intro s0
      simp only [List.map_cons, List.foldl_cons, loadStep, ih]
      simp

/-- C6: `trimBefore(key, c)` followed by a reload of the durable log yields
exactly the retained tail `messages[c:]`, with `lastConsolidated = 0` and
`createdAt` equal to its pre-trim value; `clear`, by contrast, installs a
fresh `createdAt` and an empty message list.  (`createdAt` values are
ISO-8601 timestamps, hence non-empty — the truthiness guard in `get`
requires this.) -/
theorem trimBefore_reload (store : Store) (session : Session) (c : Nat)
    (later nowc : String)
    (hca : session.createdAt ≠ "")
    (hnowc : nowc ≠ "") :
    loadSession session.key later (trimBeforeOp store session c).1
      = { key := session.key, messages := session.messages.drop c,
          lastConsolidated := 0, createdAt := session.createdAt }
    ∧ (trimBeforeOp store session c).2.createdAt = session.createdAt
    ∧ (loadSession session.key later (clearOp store session.key nowc).1).createdAt = nowc
    ∧ (loadSession session.key later (clearOp store session.key nowc).1).messages = [] := by
  refine ⟨?_, rfl, ?_, ?_⟩
  · simp only [trimBeforeOp, flushOp, loadSession, lookupStore_setFile]
    simp only [List.foldl_cons, loadStep, if_pos hca, foldl_loadStep_entries]
    simp
  · simp only [clearOp, loadSession, lookupStore_setFile]
    simp [loadStep, if_pos hnowc]
  · simp only [clearOp, loadSession, lookupStore_setFile]
    simp [loadStep]

/-- C6 witness: a concrete two-message session trimmed at cutoff 1.  The
reload returns exactly the tail, `lastConsolidated = 0`, and the original
`createdAt` (`"t0"`, not the reload-time `"t9"`); `clear` installs `"t5"`. -/
theorem trimBefore_reload_witness :
    loadSession "k" "t9"
        (trimBeforeOp [] ⟨"k", [⟨"u", "a", "t1", none⟩, ⟨"a", "b", "t2", none⟩], 1, "t0"⟩ 1).1
      = ⟨"k", [⟨"a", "b", "t2", none⟩], 0, "t0"⟩
    ∧ (trimBeforeOp [] ⟨"k", [⟨"u", "a", "t1", none⟩, ⟨"a", "b", "t2", none⟩], 1, "t0"⟩ 1).2.createdAt
      = "t0"
    ∧ (loadSession "k" "t9" (clearOp [] "k" "t5").1).createdAt = "t5"
    ∧ (loadSession "k" "t9" (clearOp [] "k" "t5").1).messages = [] :=
  trimBefore_reload [] ⟨"k", [⟨"u", "a", "t1", none⟩, ⟨"a", "b", "t2", none⟩], 1, "t0"⟩ 1
    "t9" "t5" (by decide) (by decide)

/-! ## C7 — append increments the count and keeps disk and memory equal -/

/-- C7: starting from a store whose durable entries agree with the cached
session, an `append` leaves the message count one higher and the durable
log, reloaded, reproduces exactly the in-memory ordered entries. -/
theorem append_count_reload (store : Store) (session : Session)
    (role content ts now : String)
    (hcons : entriesOf (lookupStore store (filePath session.key)) = session.messages) :
    (appendOp store session role content ts now).2.messages.length
        = session.messages.length + 1
    ∧ entriesOf (lookupStore (appendOp store session role content ts now).1
          (filePath session.key))
        = (appendOp store session role content ts now).2.messages := by
  constructor
  · simp [appendOp]
  · cases hfile : lookupStore store (filePath session.key) with
    | none =>
        have hmsgs : session.messages = [] := by
          rw [← hcons, hfile]; rfl
        simp only [appendOp, hfile, appendRec, lookupStore_setFile, setFile]
        simp [entriesOf, lookupStore, hmsgs]
    | some recs =>
        have hmsgs : recs.filterMap (fun r =>
            match r with
            | .entry e => some e
            | .meta _ _ _ => none) = session.messages := by
          rw [← hcons, hfile]; rfl
        simp only [appendOp, hfile, appendRec, lookupStore_setFile, setFile]
        simp [entriesOf, lookupStore, List.filterMap_append, hmsgs]

/-- C7 witness: appending to a one-message session whose log agrees. -/
theorem append_count_reload_witness :
    (appendOp [(filePath "k", [Record.meta "k" "t0" 0, Record.entry ⟨"u", "a", "t1", none⟩])]
        ⟨"k", [⟨"u", "a", "t1", none⟩], 0, "t0"⟩ "assistant" "b" "t2" "t9").2.messages.length
      = 2
    ∧ entriesOf (lookupStore
        (appendOp [(filePath "k", [Record.meta "k" "t0" 0, Record.entry ⟨"u", "a", "t1", none⟩])]
          ⟨"k", [⟨"u", "a", "t1", none⟩], 0, "t0"⟩ "assistant" "b" "t2" "t9").1
        (filePath "k"))
      = (appendOp [(filePath "k", [Record.meta "k" "t0" 0, Record.entry ⟨"u", "a", "t1", none⟩])]
          ⟨"k", [⟨"u", "a", "t1", none⟩], 0, "t0"⟩ "assistant" "b" "t2" "t9").2.messages :=
  append_count_reload
    [(filePath "k", [Record.meta "k" "t0" 0, Record.entry ⟨"u", "a", "t1", none⟩])]
    ⟨"k", [⟨"u", "a", "t1", none⟩], 0, "t0"⟩ "assistant" "b" "t2" "t9" (by decide)

/-! ## C2 — consolidation drain loop: mutual exclusion, FIFO, snapshots -/

/-- Invariant of the drain-loop state: at most one item is in flight; when
the flag is clear nothing is queued or in flight; the enqueue log is the
processing log (items carry their enqueue-time snapshot) followed by the
still-queued items; and every item that ever started processing except the
current one has been settled, in processing order. -/
def CInv (st : CState) : Prop :=
  st.current.length ≤ 1
  ∧ (st.draining = false → st.current = [] ∧ st.queue = [])
  ∧ st.enqLog = st.processedLog ++ st.queue
  ∧ st.processedLog.map Prod.fst = st.settled ++ st.current.map Prod.fst

lemma cInv_step (st : CState) (e : CEvent) (h : CInv st) : CInv (cStep st e) := by
  obtain ⟨hcur, hflag, henq, hproc⟩ := h
  cases e with
  | consolidate id =>
      by_cases hd : st.draining
      · simp only [cStep, hd, if_pos, List.append_assoc]
        exact ⟨hcur, by simp [hd], by simp [henq], hproc⟩
      · have hflag' := hflag (by simpa using hd)
        simp only [cStep, hd]
        rw [hflag'.2]
        simp only [List.nil_append, if_neg hd]
        refine ⟨by simp, by simp, ?_, ?_⟩
        · simp [henq, hflag'.2]
        · simp [hproc, hflag'.1]
  | finish =>
      cases hc : st.current with
      | nil => simpa [cStep, hc] using ⟨hcur, hflag, henq, hproc⟩
      | cons p rest =>
          have hrest : rest = [] := by
            have := hcur
            rw [hc] at this
            simpa using this
          subst hrest
          cases hq : st.queue with
          | nil =>
              simp only [cStep, hc, hq]
              refine ⟨by simp, by simp, by simpa [hq] using henq, ?_⟩
              simp only [List.map_nil, List.append_nil]
              rw [hproc, hc]
              cases p
              simp
          | cons q qrest =>
              have hd : st.draining = true := by
                rcases Bool.eq_false_or_eq_true st.draining with hdf | hdt
                · exact hdf
                · exact absurd (hflag hdt).1 (by simp [hc])
              simp only [cStep, hc, hq]
              refine ⟨by simp, by simp [hd], ?_, ?_⟩
              · rw [henq, hq]
                simp
              · simp only [List.map_append, hproc, hc]
                cases p
                simp
  | write m =>
      exact ⟨hcur, hflag, henq, hproc⟩

lemma cInv_run (evs : List CEvent) : ∀ st : CState, CInv st → CInv (cRun st evs) := by
  induction evs with
  | nil => intro st h; exact h
  | cons e rest ih => intro st h; exact ih (cStep st e) (cInv_step st e h)

/-- C2 (amended): along every event trace of the consolidation service, at
most one summarization call is in flight at any time; calls enter
processing, and their promises settle, in strict FIFO enqueue order with
each caller settled before the next call starts; and each call is processed
with the long-term-memory snapshot captured when it was enqueued (so a
second concurrent call's prompt does NOT see the first call's later write —
see the counterexample theorem for the claim's if-and-only-if reading). -/
theorem consolidate_drain_fifo (evs : List CEvent) (mem : String) :
    (cRun (cInit mem) evs).current.length ≤ 1
    ∧ ((cRun (cInit mem) evs).draining = false →
        (cRun (cInit mem) evs).current = [] ∧ (cRun (cInit mem) evs).queue = [])
    ∧ (cRun (cInit mem) evs).enqLog
        = (cRun (cInit mem) evs).processedLog ++ (cRun (cInit mem) evs).queue
    ∧ (cRun (cInit mem) evs).processedLog.map Prod.fst
        = (cRun (cInit mem) evs).settled
            ++ (cRun (cInit mem) evs).current.map Prod.fst :=
  cInv_run evs (cInit mem) ⟨by simp [cInit], by simp [cInit], by simp [cInit], by simp [cInit]⟩

/-- C2 witness: the invariant evaluated along a concrete two-caller trace. -/
theorem consolidate_drain_fifo_witness :
    (cRun (cInit "m") [CEvent.consolidate 1, CEvent.consolidate 2, CEvent.finish]).current.length ≤ 1
    ∧ ((cRun (cInit "m") [CEvent.consolidate 1, CEvent.consolidate 2, CEvent.finish]).draining = false →
        (cRun (cInit "m") [CEvent.consolidate 1, CEvent.consolidate 2, CEvent.finish]).current = []
        ∧ (cRun (cInit "m") [CEvent.consolidate 1, CEvent.consolidate 2, CEvent.finish]).queue = [])
    ∧ (cRun (cInit "m") [CEvent.consolidate 1, CEvent.consolidate 2, CEvent.finish]).enqLog
        = (cRun (cInit "m") [CEvent.consolidate 1, CEvent.consolidate 2, CEvent.finish]).processedLog
            ++ (cRun (cInit "m") [CEvent.consolidate 1, CEvent.consolidate 2, CEvent.finish]).queue
    ∧ (cRun (cInit "m") [CEvent.consolidate 1, CEvent.consolidate 2, CEvent.finish]).processedLog.map Prod.fst
        = (cRun (cInit "m") [CEvent.consolidate 1, CEvent.consolidate 2, CEvent.finish]).settled
            ++ (cRun (cInit "m") [CEvent.consolidate 1, CEvent.consolidate 2, CEvent.finish]).current.map Prod.fst :=
  consolidate_drain_fifo [CEvent.consolidate 1, CEvent.consolidate 2, CEvent.finish] "m"

/-- C2 (counterexample): two concurrent `consolidate` calls — caller 2
enqueues while caller 1 is in flight.  Caller 1 is enqueued first, settles
first, and its memory write (`"old"` → `"new"`) completes, yet caller 2 was
processed with the snapshot `"old"` captured at its enqueue, and the prompt
built from `"old"` differs from the prompt that would reflect caller 1's
completed write.  This falsifies the "if" direction of the claim's
if-and-only-if. -/
theorem consolidate_stale_snapshot :
    (cRun (cInit "old") [CEvent.consolidate 1, CEvent.consolidate 2, CEvent.finish,
        CEvent.write "new", CEvent.finish]).enqLog = [(1, "old"), (2, "old")]
    ∧ (cRun (cInit "old") [CEvent.consolidate 1, CEvent.consolidate 2, CEvent.finish,
        CEvent.write "new", CEvent.finish]).settled = [1, 2]
    ∧ (cRun (cInit "old") [CEvent.consolidate 1, CEvent.consolidate 2, CEvent.finish,
        CEvent.write "new", CEvent.finish]).memory = "new"
    ∧ (cRun (cInit "old") [CEvent.consolidate 1, CEvent.consolidate 2, CEvent.finish,
        CEvent.write "new", CEvent.finish]).processedLog = [(1, "old"), (2, "old")]
    ∧ consolidationPrompt [⟨"u", "hi", "t", none⟩] "old" 8192
        ≠ consolidationPrompt [⟨"u", "hi", "t", none⟩] "new" 8192 := by
  refine ⟨rfl, rfl, rfl, rfl, by decide⟩

/-! ## C3 — per-key FIFO of the dispatch loop -/

lemma lastWithKey_cons (m0 : InMsg) (l : List InMsg) (k : String) :
    lastWithKey (m0 :: l) k
      = match lastWithKey l k with
        | some t => some (t + 1)
        | none => if !isInterrupt m0 && sessionKey m0 = k then some 0 else none := rfl

lemma lookupRun_cons (k0 k : String) (v : Nat) (r : List (String × Nat)) :
    lookupRun ((k0, v) :: r) k = if k0 = k then some v else lookupRun r k := rfl

/-- The running-map fold chains each non-interrupt message after the most
recent earlier non-interrupt message of the same key (`i0` offsets global
positions, `running` summarizes the already-folded prefix). -/
lemma chainPredsAux_get? :
    ∀ (msgs : List InMsg) (d i0 : Nat) (running : List (String × Nat)) (m : InMsg),
      msgs[d]? = some m → isInterrupt m = false →
      (chainPredsAux msgs i0 running)[d]?
        = some (match lastWithKey (msgs.take d) (sessionKey m) with
                | some t => some (i0 + t)
                | none => lookupRun running (sessionKey m)) := by
  intro msgs
  induction msgs with
  | nil => intro d i0 running m hget _; simp at hget
  | cons m0 rest ih =>
      intro d i0 running m hget hni
      cases d with
      | zero =>
          have hm : m0 = m := by simpa using hget
          subst hm
          simp [chainPredsAux, hni, lastWithKey]
      | succ d' =>
          have hget' : rest[d']? = some m := by simpa using hget
          rw [List.take_succ_cons, lastWithKey_cons]
          cases h0 : isInterrupt m0 with
          | true =>
              have hrec := ih d' (i0 + 1) running m hget' hni
              rw [show chainPredsAux (m0 :: rest) i0 running
                    = none :: chainPredsAux rest (i0 + 1) running from by
                  simp [chainPredsAux, h0]]
              rw [List.getElem?_cons_succ, hrec]
              cases hl : lastWithKey (rest.take d') (sessionKey m) with
              | none => simp [h0]
              | some t =>
                  simp only [Option.some.injEq]
                  omega
          | false =>
              have hrec := ih d' (i0 + 1) ((sessionKey m0, i0) :: running) m hget' hni
              rw [show chainPredsAux (m0 :: rest) i0 running
                    = lookupRun running (sessionKey m0)
                        :: chainPredsAux rest (i0 + 1) ((sessionKey m0, i0) :: running) from by
                  simp [chainPredsAux, h0]]
              rw [List.getElem?_cons_succ, hrec]
              cases hl : lastWithKey (rest.take d') (sessionKey m) with
              | none =>
                  by_cases hk : sessionKey m0 = sessionKey m
                  · simp [lookupRun_cons, hk, h0]
                  · simp [lookupRun_cons, hk, h0]
              | some t =>
                  simp only [Option.some.injEq]
                  omega

/-- C3: if message `j` is a non-interrupt message and message `i` is the
latest earlier non-interrupt message with the same conversation key (so `i`
and `j` are consecutive for that key), then in every schedule the promise
runtime can produce, message `j`'s orchestration starts only after message
`i`'s has fully completed.  (Messages of other keys are unconstrained
between them — the witness exhibits a valid schedule where a different-key
message starts and completes in between.) -/
theorem mainLoop_perKey_fifo (msgs : List InMsg) (sched : List Ev) (i j : Nat)
    (m : InMsg)
    (hget : msgs[j]? = some m)
    (hni : isInterrupt m = false)
    (hlast : lastWithKey (msgs.take j) (sessionKey m) = some i)
    (hv : validSched msgs sched = true)
    (hstart : Ev.start j ∈ sched) :
    Ev.finish i ∈ sched
    ∧ sched.indexOf (Ev.finish i) < sched.indexOf (Ev.start j) := by
  have hcp : (chainPreds msgs)[j]? = some (some i) := by
    have h := chainPredsAux_get? msgs j 0 [] m hget hni
    rw [hlast] at h
    simpa using h
  have hall : sched.all (evOk msgs sched) = true := by
    have := hv
    simp only [validSched, Bool.and_eq_true] at this
    exact this.2
  have hok := List.all_eq_true.mp hall (Ev.start j) hstart
  simp only [evOk, hcp, Bool.and_eq_true, decide_eq_true_eq] at hok
  exact hok

/-- C3 witness: three back-to-back messages — two for key `cli:a` around
one for key `cli:b` — under a valid schedule in which the `cli:b` message
starts and completes strictly between the two `cli:a` orchestrations: the
second `cli:a` message still starts only after the first completes. -/
theorem mainLoop_perKey_fifo_witness :
    validSched [⟨"cli", "a", "hello"⟩, ⟨"cli", "b", "hi"⟩, ⟨"cli", "a", "again"⟩]
        [Ev.start 0, Ev.start 1, Ev.finish 1, Ev.finish 0, Ev.start 2, Ev.finish 2] = true
    ∧ (Ev.finish 0 ∈ [Ev.start 0, Ev.start 1, Ev.finish 1, Ev.finish 0, Ev.start 2, Ev.finish 2]
      ∧ [Ev.start 0, Ev.start 1, Ev.finish 1, Ev.finish 0, Ev.start 2,
          Ev.finish 2].indexOf (Ev.finish 0)
        < [Ev.start 0, Ev.start 1, Ev.finish 1, Ev.finish 0, Ev.start 2,
            Ev.finish 2].indexOf (Ev.start 2)) :=
  ⟨by decide,
   mainLoop_perKey_fifo [⟨"cli", "a", "hello"⟩, ⟨"cli", "b", "hi"⟩, ⟨"cli", "a", "again"⟩]
     [Ev.start 0, Ev.start 1, Ev.finish 1, Ev.finish 0, Ev.start 2, Ev.finish 2]
     0 2 ⟨"cli", "a", "again"⟩ (by decide) (by decide) (by decide) (by decide) (by decide)⟩

/-! ## C8 — the three parser tiers -/

lemma splitNl_ne_nil : ∀ s : Str, splitNl s ≠ [] := by
  intro s
  cases s with
  | nil => simp [splitNl]
  | cons c rest =>
      by_cases hc : c = '\n'
      · simp [splitNl, hc]
      · simp only [splitNl, hc, if_neg]
        cases splitNl rest <;> simp

lemma splitNl_append (a b : Str) : splitNl (a ++ '\n' :: b) = splitNl a ++ splitNl b := by
  induction a with
  | nil => simp [splitNl]
  | cons c a ih =>
      by_cases hc : c = '\n'
      · subst hc; simp [splitNl, ih]
      · cases h : splitNl a with
        | nil => exact absurd h (splitNl_ne_nil a)
        | cons l ls =>
            have hl : splitNl ((c :: a) ++ '\n' :: b) = (c :: l) :: (ls ++ splitNl b) := by
              rw [List.cons_append]
              simp [splitNl, hc, ih, h]
            have hr : splitNl (c :: a) = (c :: l) :: ls := by
              simp [splitNl, hc, h]
            rw [hl, hr, List.cons_append]

lemma joinNl_splitNl : ∀ s : Str, joinNl (splitNl s) = s := by
  intro s
  induction s with
  | nil => rfl
  | cons c rest ih =>
      by_cases hc : c = '\n'
      · subst hc
        simp only [splitNl, if_pos]
        cases h : splitNl rest with
        | nil => exact absurd h (splitNl_ne_nil rest)
        | cons l ls =>
            rw [h] at ih
            simp [joinNl, ← ih]
      · simp only [splitNl, hc, if_neg]
        cases h : splitNl rest with
        | nil => exact absurd h (splitNl_ne_nil rest)
        | cons l ls =>
            rw [h] at ih
            cases ls with
            | nil => simpa [joinNl] using ih
            | cons l2 ls2 => simpa [joinNl] using ih

/-- A response consisting of a markdown code fence wrapping the payload
`s` — the input shape named by the round-trip claim. -/
def wrapFence (s : Str) : Str :=
  "```json".toList ++ ('\n' :: (s ++ ('\n' :: "```".toList)))

/-- Stripping the markdown fence from a fenced payload recovers the trimmed
payload: the first stage of `parseResponse` on `wrapFence s`. -/
lemma stripFences_wrapped (s : Str) :
    stripFences (wrapFence s) = trimChars s := by
  have hfence : isFenceStart (wrapFence s) = true := rfl
  have hsplit : splitNl (wrapFence s)
      = "```json".toList :: (splitNl s ++ ["```".toList]) := by
    rw [wrapFence, splitNl_append, splitNl_append]
    rw [show splitNl "```json".toList = ["```json".toList] from by decide]
    rw [show splitNl "```".toList = ["```".toList] from by decide]
    simp
  unfold stripFences
  rw [if_pos hfence, hsplit]
  simp only [List.drop_succ_cons, List.drop_zero, List.getLast?_concat]
  rw [show isFenceStart (trimChars "```".toList) = true from by decide]
  simp only [if_pos, List.dropLast_concat, joinNl_splitNl]

/-- C8: (tier 1) a response that is a markdown code fence wrapping valid
structured data with both truthy fields recovers both fields; (tier 3) a
response that is not valid structured data — direct parse fails and any
brace-delimited block fails too — but contains a matching quoted
`history_entry` pattern and no `memory_update` pattern recovers
`historyEntry` alone, leaving `memoryUpdate` undefined. -/
theorem parseResponse_tiers :
    (∀ (s : Str) (parsed : List (Str × Str)) (h m : Str),
        jsonParse (trimChars s) = some parsed →
        lookupField parsed histKey = some h → h ≠ [] →
        lookupField parsed memKey = some m → m ≠ [] →
        parseResponse (wrapFence s)
          = { historyEntry := some (String.mk h), memoryUpdate := some (String.mk m) })
  ∧ (∀ (text cap : Str) (h : String),
        isFenceStart text = false →
        jsonParse text = none →
        (braceBlock text).bind jsonParse = none →
        fieldSearch histKey text = some cap →
        decodeCapture cap = some h →
        fieldSearch memKey text = none →
        parseResponse text = { historyEntry := some h, memoryUpdate := none }) := by
  constructor
  · intro s parsed h m hjson hh hhne hm hmne
    rw [parseResponse, stripFences_wrapped, hjson]
    simp [extractFromParsed, hh, hm, hhne, hmne]
  · intro text cap h hfence hjson hbrace hhist hdec hmem
    rw [parseResponse, stripFences, if_neg (by simp [hfence]), hjson, hbrace,
      hhist, hmem]
    simp [hdec]

/-- C8 witness: both tiers evaluated on concrete responses — a fenced JSON
object with both fields, and an unparseable text carrying only a quoted
`history_entry` pattern. -/
theorem parseResponse_tiers_witness :
    parseResponse (wrapFence "\x7b\"history_entry\":\"H\",\"memory_update\":\"M\"\x7d".toList)
      = { historyEntry := some "H", memoryUpdate := some "M" }
    ∧ parseResponse "xx \"history_entry\": \"hello\" yy".toList
      = { historyEntry := some "hello", memoryUpdate := none } :=
  ⟨parseResponse_tiers.1 "\x7b\"history_entry\":\"H\",\"memory_update\":\"M\"\x7d".toList
      [("history_entry".toList, "H".toList), ("memory_update".toList, "M".toList)]
      "H".toList "M".toList (by decide) (by decide) (by decide) (by decide) (by decide),
   parseResponse_tiers.2 "xx \"history_entry\": \"hello\" yy".toList
      "hello".toList "hello" (by decide) (by decide) (by decide) (by decide)
      (by decide) (by decide)⟩

end Neoclaw
